import Mathlib

/-!
Shallow embedding of the torus mesh generator (Torus.cpp / Torus.h by
Song Ho Ahn).  C++ float values are modelled as real numbers, std::vector
as Lean lists, and the Torus class as a state structure with explicit
state passing.  Each definition mirrors the corresponding source function;
the drawing functions (pure OpenGL pass-through) are not modelled.
-/

/-- state of the C++ Torus class: the scalar parameters together with the
generated vertex, normal, texture-coordinate, index, line-index and
interleaved arrays (Torus.h member variables). -/
structure Torus where
  majorRadius : ℝ
  minorRadius : ℝ
  sectorCount : ℕ
  sideCount : ℕ
  smooth : Bool
  upAxis : ℕ
  vertices : List ℝ
  normals : List ℝ
  texCoords : List ℝ
  indices : List ℕ
  lineIndices : List ℕ
  interleavedVertices : List ℝ
  interleavedStride : ℕ

/-- MIN_SECTOR_COUNT constant of Torus.cpp. -/
def MIN_SECTOR_COUNT : ℕ := 3

/-- MIN_SIDE_COUNT constant of Torus.cpp. -/
def MIN_SIDE_COUNT : ℕ := 2

/-- the local constant PI of Torus.cpp, written acos(-1) there. -/
noncomputable def PI : ℝ := Real.arccos (-1)

/-- sectorStep = 2 pi / sectorCount. -/
noncomputable def sectorStep (S : ℕ) : ℝ := 2 * PI / S

/-- sideStep = 2 pi / sideCount. -/
noncomputable def sideStep (T : ℕ) : ℝ := 2 * PI / T

/-- sideAngle = PI - i * sideStep (tube angle, starting from pi down to -pi). -/
noncomputable def sideAngle (T i : ℕ) : ℝ := PI - i * sideStep T

/-- sectorAngle = j * sectorStep (ring angle, from 0 to 2 pi). -/
noncomputable def sectorAngle (S j : ℕ) : ℝ := j * sectorStep S

/-- normal emitted at grid point (i, j) by buildVerticesSmooth:
nx = x * lengthInv and so on, with x = r cos(u) cos(v), y = r cos(u) sin(v),
z = r sin(u) and lengthInv = 1 / r. -/
noncomputable def smoothNormalAt (r : ℝ) (S T i j : ℕ) : ℝ × ℝ × ℝ :=
  let xy := r * Real.cos (sideAngle T i)
  let z := r * Real.sin (sideAngle T i)
  let x := xy * Real.cos (sectorAngle S j)
  let y := xy * Real.sin (sectorAngle S j)
  let lengthInv := 1 / r
  (x * lengthInv, y * lengthInv, z * lengthInv)

/-- position emitted at grid point (i, j) by buildVerticesSmooth:
the tube-circle offset shifted by R cos(v), R sin(v). -/
noncomputable def smoothPositionAt (R r : ℝ) (S T i j : ℕ) : ℝ × ℝ × ℝ :=
  let xy := r * Real.cos (sideAngle T i)
  let z := r * Real.sin (sideAngle T i)
  let x := xy * Real.cos (sectorAngle S j) + R * Real.cos (sectorAngle S j)
  let y := xy * Real.sin (sectorAngle S j) + R * Real.sin (sectorAngle S j)
  (x, y, z)

/-- texture coordinate emitted at grid point (i, j): (j / sectorCount, i / sideCount). -/
noncomputable def texCoordAt (S T i j : ℕ) : ℝ × ℝ := ((j : ℝ) / S, (i : ℝ) / T)

/-- the vertices array built by buildVerticesSmooth: for i in 0..sideCount and
j in 0..sectorCount (both inclusive), three position floats per grid point. -/
noncomputable def smoothVertices (R r : ℝ) (S T : ℕ) : List ℝ :=
  (List.range (T + 1)).flatMap fun i =>
    (List.range (S + 1)).flatMap fun j =>
      [(smoothPositionAt R r S T i j).1,
       (smoothPositionAt R r S T i j).2.1,
       (smoothPositionAt R r S T i j).2.2]

/-- the normals array built by buildVerticesSmooth. -/
noncomputable def smoothNormals (r : ℝ) (S T : ℕ) : List ℝ :=
  (List.range (T + 1)).flatMap fun i =>
    (List.range (S + 1)).flatMap fun j =>
      [(smoothNormalAt r S T i j).1,
       (smoothNormalAt r S T i j).2.1,
       (smoothNormalAt r S T i j).2.2]

/-- the texCoords array built by buildVerticesSmooth. -/
noncomputable def smoothTexCoords (S T : ℕ) : List ℝ :=
  (List.range (T + 1)).flatMap fun i =>
    (List.range (S + 1)).flatMap fun j =>
      [(texCoordAt S T i j).1, (texCoordAt S T i j).2]

/-- triangle indices built by buildVerticesSmooth: for each cell (i, j) with
k1 = i * (S + 1) + j and k2 = k1 + S + 1, the two triangles
(k1, k2, k1 + 1) and (k1 + 1, k2, k2 + 1). -/
def smoothIndices (S T : ℕ) : List ℕ :=
  (List.range T).flatMap fun i =>
    (List.range S).flatMap fun j =>
      let k1 := i * (S + 1) + j
      let k2 := k1 + S + 1
      [k1, k2, k1 + 1, k1 + 1, k2, k2 + 1]

/-- line indices built by buildVerticesSmooth: per cell the vertical edge
(k1, k2) and the horizontal edge (k1, k1 + 1). -/
def smoothLineIndices (S T : ℕ) : List ℕ :=
  (List.range T).flatMap fun i =>
    (List.range S).flatMap fun j =>
      let k1 := i * (S + 1) + j
      let k2 := k1 + S + 1
      [k1, k2, k1, k1 + 1]

/-- temporary vertex record (x, y, z, s, t) of buildVerticesFlat. -/
structure FlatVertex where
  x : ℝ
  y : ℝ
  z : ℝ
  s : ℝ
  t : ℝ

/-- the default FlatVertex used as getD fallback (never reached for in-range
accesses). -/
def FlatVertex.zero : FlatVertex := ⟨0, 0, 0, 0, 0⟩

/-- temporary vertex computed by the first loop of buildVerticesFlat at grid
point (i, j): xy = R + r cos(u), position (xy cos v, xy sin v, r sin u),
texture coordinate (j / S, i / T). -/
noncomputable def flatTmpVertex (R r : ℝ) (S T i j : ℕ) : FlatVertex :=
  { x := (R + r * Real.cos (sideAngle T i)) * Real.cos (sectorAngle S j)
    y := (R + r * Real.cos (sideAngle T i)) * Real.sin (sectorAngle S j)
    z := r * Real.sin (sideAngle T i)
    s := (j : ℝ) / S
    t := (i : ℝ) / T }

/-- the tmpVertices vector of buildVerticesFlat, one record per grid point,
row after row. -/
noncomputable def flatTmpVertices (R r : ℝ) (S T : ℕ) : List FlatVertex :=
  (List.range (T + 1)).flatMap fun i =>
    (List.range (S + 1)).flatMap fun j => [flatTmpVertex R r S T i j]

/-- Torus::computeFaceNormal: cross product of the edge vectors v1 to v2 and
v1 to v3, normalized when its length exceeds EPSILON = 0.000001, and the
zero vector otherwise. -/
noncomputable def computeFaceNormal (x1 y1 z1 x2 y2 z2 x3 y3 z3 : ℝ) : ℝ × ℝ × ℝ :=
  let EPSILON : ℝ := 0.000001
  let ex1 := x2 - x1
  let ey1 := y2 - y1
  let ez1 := z2 - z1
  let ex2 := x3 - x1
  let ey2 := y3 - y1
  let ez2 := z3 - z1
  let nx := ey1 * ez2 - ez1 * ey2
  let ny := ez1 * ex2 - ex1 * ez2
  let nz := ex1 * ey2 - ey1 * ex2
  let length := Real.sqrt (nx * nx + ny * ny + nz * nz)
  if length > EPSILON then
    (nx * (1 / length), ny * (1 / length), nz * (1 / length))
  else (0, 0, 0)

/-- the quad corner v1 = tmpVertices[vi1] of buildVerticesFlat, vi1 = i*(S+1)+j. -/
noncomputable def quadV1 (R r : ℝ) (S T i j : ℕ) : FlatVertex :=
  (flatTmpVertices R r S T).getD (i * (S + 1) + j) FlatVertex.zero

/-- the quad corner v2 = tmpVertices[vi2] of buildVerticesFlat, vi2 = (i+1)*(S+1)+j. -/
noncomputable def quadV2 (R r : ℝ) (S T i j : ℕ) : FlatVertex :=
  (flatTmpVertices R r S T).getD ((i + 1) * (S + 1) + j) FlatVertex.zero

/-- the quad corner v3 = tmpVertices[vi1 + 1] of buildVerticesFlat. -/
noncomputable def quadV3 (R r : ℝ) (S T i j : ℕ) : FlatVertex :=
  (flatTmpVertices R r S T).getD (i * (S + 1) + j + 1) FlatVertex.zero

/-- the quad corner v4 = tmpVertices[vi2 + 1] of buildVerticesFlat. -/
noncomputable def quadV4 (R r : ℝ) (S T i j : ℕ) : FlatVertex :=
  (flatTmpVertices R r S T).getD ((i + 1) * (S + 1) + j + 1) FlatVertex.zero

/-- face normal of quad (i, j) in buildVerticesFlat:
computeFaceNormal applied to v1, v2, v3. -/
noncomputable def flatFaceNormal (R r : ℝ) (S T i j : ℕ) : ℝ × ℝ × ℝ :=
  computeFaceNormal
    (quadV1 R r S T i j).x (quadV1 R r S T i j).y (quadV1 R r S T i j).z
    (quadV2 R r S T i j).x (quadV2 R r S T i j).y (quadV2 R r S T i j).z
    (quadV3 R r S T i j).x (quadV3 R r S T i j).y (quadV3 R r S T i j).z

/-- the vertices array built by buildVerticesFlat: per quad the four corners
v1, v2, v3, v4, three floats each. -/
noncomputable def flatVertices (R r : ℝ) (S T : ℕ) : List ℝ :=
  (List.range T).flatMap fun i =>
    (List.range S).flatMap fun j =>
      [(quadV1 R r S T i j).x, (quadV1 R r S T i j).y, (quadV1 R r S T i j).z,
       (quadV2 R r S T i j).x, (quadV2 R r S T i j).y, (quadV2 R r S T i j).z,
       (quadV3 R r S T i j).x, (quadV3 R r S T i j).y, (quadV3 R r S T i j).z,
       (quadV4 R r S T i j).x, (quadV4 R r S T i j).y, (quadV4 R r S T i j).z]

/-- the texCoords array built by buildVerticesFlat: per quad the four (s, t)
pairs of its corners. -/
noncomputable def flatTexCoords (R r : ℝ) (S T : ℕ) : List ℝ :=
  (List.range T).flatMap fun i =>
    (List.range S).flatMap fun j =>
      [(quadV1 R r S T i j).s, (quadV1 R r S T i j).t,
       (quadV2 R r S T i j).s, (quadV2 R r S T i j).t,
       (quadV3 R r S T i j).s, (quadV3 R r S T i j).t,
       (quadV4 R r S T i j).s, (quadV4 R r S T i j).t]

/-- the normals array built by buildVerticesFlat: per quad the same face
normal repeated for all four corners. -/
noncomputable def flatNormals (R r : ℝ) (S T : ℕ) : List ℝ :=
  (List.range T).flatMap fun i =>
    (List.range S).flatMap fun j =>
      [(flatFaceNormal R r S T i j).1,
       (flatFaceNormal R r S T i j).2.1,
       (flatFaceNormal R r S T i j).2.2,
       (flatFaceNormal R r S T i j).1,
       (flatFaceNormal R r S T i j).2.1,
       (flatFaceNormal R r S T i j).2.2,
       (flatFaceNormal R r S T i j).1,
       (flatFaceNormal R r S T i j).2.1,
       (flatFaceNormal R r S T i j).2.2,
       (flatFaceNormal R r S T i j).1,
       (flatFaceNormal R r S T i j).2.1,
       (flatFaceNormal R r S T i j).2.2]

/-- triangle indices of buildVerticesFlat: the running index counter starts
at 0 and advances by 4 per quad, so quad (i, j) starts at 4 * (i * S + j);
the two triangles are (idx, idx+1, idx+2) and (idx+2, idx+1, idx+3). -/
def flatIndices (S T : ℕ) : List ℕ :=
  (List.range T).flatMap fun i =>
    (List.range S).flatMap fun j =>
      let index := 4 * (i * S + j)
      [index, index + 1, index + 2, index + 2, index + 1, index + 3]

/-- line indices of buildVerticesFlat: per quad the edges (idx, idx+1) and
(idx, idx+2). -/
def flatLineIndices (S T : ℕ) : List ℕ :=
  (List.range T).flatMap fun i =>
    (List.range S).flatMap fun j =>
      let index := 4 * (i * S + j)
      [index, index + 1, index, index + 2]

/-- Torus::buildInterleavedVertices: one 8-float record per vertex, holding
the three position floats, the three normal floats and the two texture
floats; the loop runs while i < vertices.size() stepping by 3, hence
ceil(vertices.length / 3) records. -/
def buildInterleavedVertices (vertices normals texCoords : List ℝ) : List ℝ :=
  (List.range ((vertices.length + 2) / 3)).flatMap fun k =>
    [vertices.getD (3 * k) 0, vertices.getD (3 * k + 1) 0, vertices.getD (3 * k + 2) 0,
     normals.getD (3 * k) 0, normals.getD (3 * k + 1) 0, normals.getD (3 * k + 2) 0,
     texCoords.getD (2 * k) 0, texCoords.getD (2 * k + 1) 0]

/-- the three transform-matrix columns tx, ty, tz of Torus::changeUpAxis,
one case per ordered axis pair; the final case is the bare else branch of
the source (reached for Z to Y and for every unvalidated pair). -/
def axisCols (f t : ℕ) : (ℝ × ℝ × ℝ) × (ℝ × ℝ × ℝ) × (ℝ × ℝ × ℝ) :=
  if f = 1 ∧ t = 2 then ((0, 1, 0), (-1, 0, 0), (0, 0, 1))
  else if f = 1 ∧ t = 3 then ((0, 0, 1), (0, 1, 0), (-1, 0, 0))
  else if f = 2 ∧ t = 1 then ((0, -1, 0), (1, 0, 0), (0, 0, 1))
  else if f = 2 ∧ t = 3 then ((1, 0, 0), (0, 0, 1), (0, -1, 0))
  else if f = 3 ∧ t = 1 then ((0, 0, -1), (0, 1, 0), (1, 0, 0))
  else ((1, 0, 0), (0, 0, -1), (0, 1, 0))

/-- the per-vector transform of Torus::changeUpAxis: new component k is
tx[k] * vx + ty[k] * vy + tz[k] * vz. -/
def applyAxis (f t : ℕ) (v : ℝ × ℝ × ℝ) : ℝ × ℝ × ℝ :=
  let tx := (axisCols f t).1
  let ty := (axisCols f t).2.1
  let tz := (axisCols f t).2.2
  (tx.1 * v.1 + ty.1 * v.2.1 + tz.1 * v.2.2,
   tx.2.1 * v.1 + ty.2.1 * v.2.1 + tz.2.1 * v.2.2,
   tx.2.2 * v.1 + ty.2.2 * v.2.1 + tz.2.2 * v.2.2)

/-- applies a function to each consecutive triple of a flat coordinate list,
the loop shape shared by changeUpAxis (transform) and reverseNormals
(negation, index swap); a leftover of fewer than three elements is
unreachable in every state the program builds. -/
def mapTriples {α : Type} (f : α × α × α → α × α × α) : List α → List α
  | x :: y :: z :: rest =>
      (f (x, y, z)).1 :: (f (x, y, z)).2.1 :: (f (x, y, z)).2.2 :: mapTriples f rest
  | l => l

/-- the interleaved-array update pass of changeUpAxis: for each record
k < ceil(verts.length / 3) the first three slots receive the transformed
vertex, slots 3 to 5 the transformed normal; all other entries keep their
old value. -/
def writeVNInter (inter verts norms : List ℝ) : List ℝ :=
  (List.range inter.length).map fun idx =>
    let k := idx / 8
    let m := idx % 8
    if k < (verts.length + 2) / 3 then
      if m < 3 then verts.getD (3 * k + m) 0
      else if m < 6 then norms.getD (3 * k + (m - 3)) 0
      else inter.getD idx 0
    else inter.getD idx 0

/-- the interleaved-array update pass of reverseNormals: slots 3 to 5 of
each record k < ceil(norms.length / 3) receive the new normal; everything
else keeps its old value. -/
def writeNInter (inter norms : List ℝ) : List ℝ :=
  (List.range inter.length).map fun idx =>
    let k := idx / 8
    let m := idx % 8
    if k < (norms.length + 2) / 3 ∧ 3 ≤ m ∧ m < 6 then
      norms.getD (3 * k + (m - 3)) 0
    else inter.getD idx 0

/-- Torus::changeUpAxis: transforms every vertex and normal triple by the
(from, to) matrix and mirrors the new values into the interleaved array in
the same pass. -/
def changeUpAxisState (f t : ℕ) (s : Torus) : Torus :=
  let v' := mapTriples (applyAxis f t) s.vertices
  let n' := mapTriples (applyAxis f t) s.normals
  { s with
    vertices := v'
    normals := n'
    interleavedVertices := writeVNInter s.interleavedVertices v' n' }

/-- Torus::reverseNormals: negates every normal triple, mirrors the new
normals into the interleaved array, and swaps the first and last index of
every triangle. -/
def reverseNormalsState (s : Torus) : Torus :=
  let n' := mapTriples (fun p => (-p.1, -p.2.1, -p.2.2)) s.normals
  { s with
    normals := n'
    interleavedVertices := writeNInter s.interleavedVertices n'
    indices := mapTriples (fun p => (p.2.2, p.2.1, p.1)) s.indices }

/-- Torus::buildVerticesSmooth: rebuilds all arrays from the smooth sampler,
rebuilds the interleaved array, then remaps from the Z axis to the stored
up axis when that axis is not Z. -/
noncomputable def buildVerticesSmoothState (s : Torus) : Torus :=
  let v := smoothVertices s.majorRadius s.minorRadius s.sectorCount s.sideCount
  let n := smoothNormals s.minorRadius s.sectorCount s.sideCount
  let tc := smoothTexCoords s.sectorCount s.sideCount
  let s1 : Torus :=
    { s with
      vertices := v
      normals := n
      texCoords := tc
      indices := smoothIndices s.sectorCount s.sideCount
      lineIndices := smoothLineIndices s.sectorCount s.sideCount
      interleavedVertices := buildInterleavedVertices v n tc }
  if s.upAxis ≠ 3 then changeUpAxisState 3 s.upAxis s1 else s1

/-- Torus::buildVerticesFlat: rebuilds all arrays from the flat sampler,
rebuilds the interleaved array, then remaps from the Z axis to the stored
up axis when that axis is not Z. -/
noncomputable def buildVerticesFlatState (s : Torus) : Torus :=
  let v := flatVertices s.majorRadius s.minorRadius s.sectorCount s.sideCount
  let n := flatNormals s.majorRadius s.minorRadius s.sectorCount s.sideCount
  let tc := flatTexCoords s.majorRadius s.minorRadius s.sectorCount s.sideCount
  let s1 : Torus :=
    { s with
      vertices := v
      normals := n
      texCoords := tc
      indices := flatIndices s.sectorCount s.sideCount
      lineIndices := flatLineIndices s.sectorCount s.sideCount
      interleavedVertices := buildInterleavedVertices v n tc }
  if s.upAxis ≠ 3 then changeUpAxisState 3 s.upAxis s1 else s1

/-- the sector-count clamp of Torus::set: values below MIN_SECTOR_COUNT = 3
become 3. -/
def clampSectorCount (sectors : ℤ) : ℕ :=
  if sectors < 3 then 3 else sectors.toNat

/-- the side-count clamp of Torus::set: values below MIN_SIDE_COUNT = 2
become 2. -/
def clampSideCount (sides : ℤ) : ℕ :=
  if sides < 2 then 2 else sides.toNat

/-- the up-axis clamp of Torus::set: values outside 1..3 become 3. -/
def clampUpAxis (up : ℤ) : ℕ :=
  if up < 1 ∨ 3 < up then 3 else up.toNat

/-- Torus::set: each radius is assigned only when the requested value is
positive, the counts and the axis are clamped, and the arrays are rebuilt
by the sampler selected by the shading flag.  The function is total: no
input is rejected. -/
noncomputable def Torus.set (s : Torus) (majorR minorR : ℝ) (sectors sides : ℤ)
    (sm : Bool) (up : ℤ) : Torus :=
  let s1 : Torus :=
    { s with
      majorRadius := if 0 < majorR then majorR else s.majorRadius
      minorRadius := if 0 < minorR then minorR else s.minorRadius
      sectorCount := clampSectorCount sectors
      sideCount := clampSideCount sides
      smooth := sm
      upAxis := clampUpAxis up }
  if sm then buildVerticesSmoothState s1 else buildVerticesFlatState s1

/-- Torus::Torus: the member-initializer list sets only interleavedStride
to 32 and the body calls set; every other member starts indeterminate,
modelled by an arbitrary prior state g. -/
noncomputable def Torus.ctor (majorR minorR : ℝ) (sectors sides : ℤ)
    (sm : Bool) (up : ℤ) (g : Torus) : Torus :=
  Torus.set { g with interleavedStride := 32 } majorR minorR sectors sides sm up

/-- Torus::setMajorRadius: rebuilds through set only when the value changed. -/
noncomputable def Torus.setMajorRadius (s : Torus) (majorRadius : ℝ) : Torus :=
  if majorRadius ≠ s.majorRadius then
    s.set majorRadius s.minorRadius (s.sectorCount : ℤ) (s.sideCount : ℤ)
      s.smooth (s.upAxis : ℤ)
  else s

/-- Torus::setMinorRadius: rebuilds through set only when the value changed. -/
noncomputable def Torus.setMinorRadius (s : Torus) (minorRadius : ℝ) : Torus :=
  if minorRadius ≠ s.minorRadius then
    s.set s.majorRadius minorRadius (s.sectorCount : ℤ) (s.sideCount : ℤ)
      s.smooth (s.upAxis : ℤ)
  else s

/-- Torus::setSectorCount: rebuilds through set only when the value changed. -/
noncomputable def Torus.setSectorCount (s : Torus) (sectors : ℤ) : Torus :=
  if sectors ≠ (s.sectorCount : ℤ) then
    s.set s.majorRadius s.minorRadius sectors (s.sideCount : ℤ)
      s.smooth (s.upAxis : ℤ)
  else s

/-- Torus::setSideCount: rebuilds through set only when the value changed. -/
noncomputable def Torus.setSideCount (s : Torus) (sides : ℤ) : Torus :=
  if sides ≠ (s.sideCount : ℤ) then
    s.set s.majorRadius s.minorRadius (s.sectorCount : ℤ) sides
      s.smooth (s.upAxis : ℤ)
  else s

/-- Torus::setSmooth: stores the new flag and rebuilds with the matching
sampler, or returns unchanged when the flag is unchanged. -/
noncomputable def Torus.setSmooth (s : Torus) (sm : Bool) : Torus :=
  if s.smooth = sm then s
  else
    let s1 : Torus := { s with smooth := sm }
    if sm then buildVerticesSmoothState s1 else buildVerticesFlatState s1

/-- Torus::setUpAxis: a same-axis or out-of-range request is a no-op;
otherwise the mesh is remapped in place and the new axis stored. -/
def Torus.setUpAxis (s : Torus) (up : ℤ) : Torus :=
  if (s.upAxis : ℤ) = up ∨ up < 1 ∨ 3 < up then s
  else { changeUpAxisState s.upAxis up.toNat s with upAxis := up.toNat }

/-- Torus::getVertexCount: vertices.size() / 3. -/
def Torus.getVertexCount (s : Torus) : ℕ := s.vertices.length / 3

/-- Torus::getNormalCount: normals.size() / 3. -/
def Torus.getNormalCount (s : Torus) : ℕ := s.normals.length / 3

/-- Torus::getTexCoordCount: texCoords.size() / 2. -/
def Torus.getTexCoordCount (s : Torus) : ℕ := s.texCoords.length / 2

/-- Torus::getIndexCount: indices.size(). -/
def Torus.getIndexCount (s : Torus) : ℕ := s.indices.length

/-- Torus::getLineIndexCount: lineIndices.size(). -/
def Torus.getLineIndexCount (s : Torus) : ℕ := s.lineIndices.length

/-- Torus::getTriangleCount: getIndexCount() / 3. -/
def Torus.getTriangleCount (s : Torus) : ℕ := s.getIndexCount / 3

/-- Torus::getInterleavedStride. -/
def Torus.getInterleavedStride (s : Torus) : ℕ := s.interleavedStride

/-- the invariant every generated state satisfies: the three attribute
arrays describe the same number of vertices, both index arrays stay below
that number, triangle indices come in triples, line indices in pairs, and
the interleaved array is exactly the packing of the three attribute
arrays. -/
def Torus.invariant (s : Torus) : Prop :=
  s.vertices.length = 3 * s.getVertexCount ∧
  s.normals.length = 3 * s.getVertexCount ∧
  s.texCoords.length = 2 * s.getVertexCount ∧
  (∀ idx ∈ s.indices, idx < s.getVertexCount) ∧
  (∀ idx ∈ s.lineIndices, idx < s.getVertexCount) ∧
  s.indices.length % 3 = 0 ∧
  s.lineIndices.length % 2 = 0 ∧
  s.interleavedVertices = buildInterleavedVertices s.vertices s.normals s.texCoords

/-- squared euclidean length of a coordinate triple. -/
def normSq (p : ℝ × ℝ × ℝ) : ℝ := p.1 ^ 2 + p.2.1 ^ 2 + p.2.2 ^ 2

/-- the radius member as the constructor path sees it: none models the
indeterminate value of a member the constructor never assigned; Torus::set
lines 57 to 60 assign a radius only when the requested value is positive. -/
noncomputable def radiusAfterSet (prev : Option ℝ) (req : ℝ) : Option ℝ :=
  if 0 < req then some req else prev

/-- the majorRadius member after Torus::Torus(majorR, ...): the constructor
initializes no radius member before calling set. -/
noncomputable def ctorMajorRadius (majorR : ℝ) : Option ℝ := radiusAfterSet none majorR

/-- the minorRadius member after Torus::Torus(_, minorR, ...). -/
noncomputable def ctorMinorRadius (minorR : ℝ) : Option ℝ := radiusAfterSet none minorR

/-- a concrete default state used to instantiate universally quantified
state arguments in concrete checks. -/
noncomputable def t0 : Torus :=
  { majorRadius := 1, minorRadius := 1 / 2, sectorCount := 36, sideCount := 18,
    smooth := true, upAxis := 3, vertices := [], normals := [], texCoords := [],
    indices := [], lineIndices := [], interleavedVertices := [],
    interleavedStride := 32 }

/-! Generic helpers about flatMap over an index range with constant-length
chunks, and about the triple-wise map used by the in-place operators. -/

theorem flatMap_range_length {α : Type} (f : ℕ → List α) (c n : ℕ)
    (hf : ∀ i < n, (f i).length = c) :
    ((List.range n).flatMap f).length = n * c := by
  induction n with
  | zero => simp
  | succ n ih =>
      rw [List.range_succ, List.flatMap_append, List.length_append,
        ih (fun i hi => hf i (Nat.lt_succ_of_lt hi))]
      simp [hf n (Nat.lt_succ_self n)]
      ring

theorem flatMap_range_getD {α : Type} (f : ℕ → List α) (c n k m : ℕ) (d : α)
    (hf : ∀ i < n, (f i).length = c) (hk : k < n) (hm : m < c) :
    ((List.range n).flatMap f).getD (c * k + m) d = (f k).getD m d := by
  induction n with
  | zero => omega
  | succ n ih =>
      have hlen : ((List.range n).flatMap f).length = n * c :=
        flatMap_range_length f c n (fun i hi => hf i (Nat.lt_succ_of_lt hi))
      have e2 : c * n = n * c := Nat.mul_comm c n
      rw [List.range_succ, List.flatMap_append]
      rcases Nat.lt_or_ge k n with hkn | hkn
      · have hmul : c * (k + 1) ≤ c * n := Nat.mul_le_mul_left c hkn
        have e1 : c * (k + 1) = c * k + c := by ring
        rw [List.getD_append]
        · exact ih (fun i hi => hf i (Nat.lt_succ_of_lt hi)) hkn
        · rw [hlen]; omega
      · have hk' : k = n := by omega
        subst hk'
        rw [List.getD_append_right _ _ _ _ (by rw [hlen]; omega)]
        rw [hlen]
        have e3 : c * k + m - k * c = m := by omega
        rw [e3]
        simp

theorem mem_flatMap_range {α : Type} (f : ℕ → List α) (n : ℕ) (a : α)
    (ha : a ∈ (List.range n).flatMap f) : ∃ i < n, a ∈ f i := by
  rw [List.mem_flatMap] at ha
  obtain ⟨i, hi, hai⟩ := ha
  exact ⟨i, List.mem_range.mp hi, hai⟩

theorem mapTriples_length {α : Type} (f : α × α × α → α × α × α) :
    ∀ l : List α, (mapTriples f l).length = l.length
  | [] => rfl
  | [_] => rfl
  | [_, _] => rfl
  | x :: y :: z :: rest => by
      simp only [mapTriples, List.length_cons]
      rw [mapTriples_length f rest]

theorem mapTriples_mapTriples {α : Type} (f g : α × α × α → α × α × α) :
    ∀ l : List α,
      mapTriples g (mapTriples f l) = mapTriples (fun p => g (f p)) l
  | [] => rfl
  | [_] => rfl
  | [_, _] => rfl
  | x :: y :: z :: rest => by
      simp only [mapTriples]
      rw [mapTriples_mapTriples f g rest]

theorem mapTriples_id {α : Type} (f : α × α × α → α × α × α)
    (hf : ∀ p, f p = p) : ∀ l : List α, mapTriples f l = l
  | [] => rfl
  | [_] => rfl
  | [_, _] => rfl
  | x :: y :: z :: rest => by
      simp only [mapTriples, hf, mapTriples_id f hf rest]

theorem mapTriples_neg :
    ∀ l : List ℝ, l.length % 3 = 0 →
      mapTriples (fun p : ℝ × ℝ × ℝ => (-p.1, -p.2.1, -p.2.2)) l
        = l.map (fun a => -a)
  | [], _ => rfl
  | [_], h => by simp at h
  | [_, _], h => by simp at h
  | x :: y :: z :: rest, h => by
      have h' : rest.length % 3 = 0 := by
        simp only [List.length_cons] at h
        omega
      simp only [mapTriples, List.map_cons]
      rw [mapTriples_neg rest h']

theorem mapTriples_getD_triple {α : Type} (f : α × α × α → α × α × α) (d : α) :
    ∀ (l : List α) (q : ℕ), 3 * q + 2 < l.length →
      ((mapTriples f l).getD (3 * q) d,
       (mapTriples f l).getD (3 * q + 1) d,
       (mapTriples f l).getD (3 * q + 2) d)
        = f (l.getD (3 * q) d, l.getD (3 * q + 1) d, l.getD (3 * q + 2) d)
  | [], q, h => by simp at h
  | [_], q, h => by simp at h
  | [_, _], q, h => by simp at h
  | x :: y :: z :: rest, 0, h => by
      simp [mapTriples]
  | x :: y :: z :: rest, q + 1, h => by
      have h' : 3 * q + 2 < rest.length := by
        simp only [List.length_cons] at h
        omega
      have ih := mapTriples_getD_triple f d rest q h'
      have e0 : 3 * (q + 1) = 3 * q + 3 := by ring
      have e1 : 3 * (q + 1) + 1 = 3 * q + 1 + 3 := by ring
      have e2 : 3 * (q + 1) + 2 = 3 * q + 2 + 3 := by ring
      simp only [mapTriples, e0, e1, e2, List.getD_cons_succ]
      exact ih

theorem flatMap_grid_length {α : Type} (g : ℕ → ℕ → List α) (c m n : ℕ)
    (hg : ∀ i j, (g i j).length = c) :
    ((List.range m).flatMap fun i =>
      (List.range n).flatMap fun j => g i j).length = m * (n * c) :=
  flatMap_range_length _ (n * c) m
    (fun i _ => flatMap_range_length _ c n (fun j _ => hg i j))

theorem flatMap_grid_getD {α : Type} (g : ℕ → ℕ → List α) (c m n i j mm : ℕ)
    (d : α) (hg : ∀ i j, (g i j).length = c) (hi : i < m) (hj : j < n)
    (hmm : mm < c) :
    ((List.range m).flatMap fun i =>
      (List.range n).flatMap fun j => g i j).getD ((n * c) * i + (c * j + mm)) d
      = (g i j).getD mm d := by
  have hb : c * j + mm < n * c := by
    have hmul : c * (j + 1) ≤ c * n := Nat.mul_le_mul_left c hj
    have e1 : c * (j + 1) = c * j + c := by ring
    have e2 : c * n = n * c := Nat.mul_comm c n
    omega
  rw [flatMap_range_getD _ (n * c) m i (c * j + mm) d
    (fun i _ => flatMap_range_length _ c n (fun j _ => hg i j)) hi hb]
  exact flatMap_range_getD _ c n j mm d (fun j _ => hg i j) hj hmm

theorem smoothVertices_length (R r : ℝ) (S T : ℕ) :
    (smoothVertices R r S T).length = 3 * ((T + 1) * (S + 1)) := by
  rw [smoothVertices, flatMap_grid_length _ 3 _ _ (fun i j => by rfl)]
  ring

theorem smoothNormals_length (r : ℝ) (S T : ℕ) :
    (smoothNormals r S T).length = 3 * ((T + 1) * (S + 1)) := by
  rw [smoothNormals, flatMap_grid_length _ 3 _ _ (fun i j => by rfl)]
  ring

theorem smoothTexCoords_length (S T : ℕ) :
    (smoothTexCoords S T).length = 2 * ((T + 1) * (S + 1)) := by
  rw [smoothTexCoords, flatMap_grid_length _ 2 _ _ (fun i j => by rfl)]
  ring

theorem smoothIndices_length (S T : ℕ) :
    (smoothIndices S T).length = 3 * (2 * (S * T)) := by
  rw [smoothIndices, flatMap_grid_length _ 6 _ _ (fun i j => by rfl)]
  ring

theorem smoothLineIndices_length (S T : ℕ) :
    (smoothLineIndices S T).length = 4 * (S * T) := by
  rw [smoothLineIndices, flatMap_grid_length _ 4 _ _ (fun i j => by rfl)]
  ring

theorem flatVertices_length (R r : ℝ) (S T : ℕ) :
    (flatVertices R r S T).length = 3 * (4 * (S * T)) := by
  rw [flatVertices, flatMap_grid_length _ 12 _ _ (fun i j => by rfl)]
  ring

theorem flatNormals_length (R r : ℝ) (S T : ℕ) :
    (flatNormals R r S T).length = 3 * (4 * (S * T)) := by
  rw [flatNormals, flatMap_grid_length _ 12 _ _ (fun i j => by rfl)]
  ring

theorem flatTexCoords_length (R r : ℝ) (S T : ℕ) :
    (flatTexCoords R r S T).length = 2 * (4 * (S * T)) := by
  rw [flatTexCoords, flatMap_grid_length _ 8 _ _ (fun i j => by rfl)]
  ring

theorem flatIndices_length (S T : ℕ) :
    (flatIndices S T).length = 3 * (2 * (S * T)) := by
  rw [flatIndices, flatMap_grid_length _ 6 _ _ (fun i j => by rfl)]
  ring

theorem flatLineIndices_length (S T : ℕ) :
    (flatLineIndices S T).length = 4 * (S * T) := by
  rw [flatLineIndices, flatMap_grid_length _ 4 _ _ (fun i j => by rfl)]
  ring

theorem buildInterleavedVertices_length (v n tc : List ℝ) :
    (buildInterleavedVertices v n tc).length = ((v.length + 2) / 3) * 8 :=
  flatMap_range_length _ 8 _ (fun _ _ => rfl)

theorem buildInterleavedVertices_getD (v n tc : List ℝ) (k m : ℕ)
    (hk : k < (v.length + 2) / 3) (hm : m < 8) :
    (buildInterleavedVertices v n tc).getD (8 * k + m) 0
      = ([v.getD (3 * k) 0, v.getD (3 * k + 1) 0, v.getD (3 * k + 2) 0,
          n.getD (3 * k) 0, n.getD (3 * k + 1) 0, n.getD (3 * k + 2) 0,
          tc.getD (2 * k) 0, tc.getD (2 * k + 1) 0]).getD m 0 :=
  flatMap_range_getD _ 8 _ k m 0 (fun _ _ => rfl) hk hm

theorem writeVNInter_build (v n tc v2 n2 : List ℝ) (hv : v2.length = v.length) :
    writeVNInter (buildInterleavedVertices v n tc) v2 n2
      = buildInterleavedVertices v2 n2 tc := by
  have hrec : (v2.length + 2) / 3 = (v.length + 2) / 3 := by rw [hv]
  have hlen1 := buildInterleavedVertices_length v n tc
  have hlen2 := buildInterleavedVertices_length v2 n2 tc
  apply List.ext_getElem
  · simp [writeVNInter, hlen1, hlen2, hrec]
  · intro idx h1 h2
    have hidx : idx < ((v.length + 2) / 3) * 8 := by
      simpa [writeVNInter, hlen1] using h1
    simp only [writeVNInter, List.getElem_map, List.getElem_range]
    rw [← List.getD_eq_getElem (buildInterleavedVertices v2 n2 tc) 0]
    obtain ⟨k, m, hm8, rfl⟩ : ∃ k m, m < 8 ∧ idx = 8 * k + m :=
      ⟨idx / 8, idx % 8, by omega, by omega⟩
    have hk : k < (v.length + 2) / 3 := by omega
    have e1 : (8 * k + m) / 8 = k := by omega
    have e2 : (8 * k + m) % 8 = m := by omega
    rw [buildInterleavedVertices_getD v2 n2 tc k m (by omega) hm8]
    simp only [e1, e2, hrec, if_pos hk]
    interval_cases m
    · simp
    · simp
    · simp
    · simp
    · simp
    · simp
    · rw [buildInterleavedVertices_getD v n tc k 6 hk (by norm_num)]
      simp
    · rw [buildInterleavedVertices_getD v n tc k 7 hk (by norm_num)]
      simp

theorem writeNInter_build (v n tc n2 : List ℝ) (hn : n2.length = v.length) :
    writeNInter (buildInterleavedVertices v n tc) n2
      = buildInterleavedVertices v n2 tc := by
  have hrec : (n2.length + 2) / 3 = (v.length + 2) / 3 := by rw [hn]
  have hlen1 := buildInterleavedVertices_length v n tc
  have hlen2 := buildInterleavedVertices_length v n2 tc
  apply List.ext_getElem
  · simp [writeNInter, hlen1, hlen2]
  · intro idx h1 h2
    have hidx : idx < ((v.length + 2) / 3) * 8 := by
      simpa [writeNInter, hlen1] using h1
    simp only [writeNInter, List.getElem_map, List.getElem_range]
    rw [← List.getD_eq_getElem (buildInterleavedVertices v n2 tc) 0]
    obtain ⟨k, m, hm8, rfl⟩ : ∃ k m, m < 8 ∧ idx = 8 * k + m :=
      ⟨idx / 8, idx % 8, by omega, by omega⟩
    have hk : k < (v.length + 2) / 3 := by omega
    have e1 : (8 * k + m) / 8 = k := by omega
    have e2 : (8 * k + m) % 8 = m := by omega
    rw [buildInterleavedVertices_getD v n2 tc k m hk hm8]
    simp only [e1, e2, hrec]
    interval_cases m
    · rw [if_neg (by omega)]
      rw [buildInterleavedVertices_getD v n tc k 0 hk (by norm_num)]
      simp
    · rw [if_neg (by omega)]
      rw [buildInterleavedVertices_getD v n tc k 1 hk (by norm_num)]
      simp
    · rw [if_neg (by omega)]
      rw [buildInterleavedVertices_getD v n tc k 2 hk (by norm_num)]
      simp
    · rw [if_pos (by omega)]
      simp
    · rw [if_pos (by omega)]
      simp
    · rw [if_pos (by omega)]
      simp
    · rw [if_neg (by omega)]
      rw [buildInterleavedVertices_getD v n tc k 6 hk (by norm_num)]
      simp
    · rw [if_neg (by omega)]
      rw [buildInterleavedVertices_getD v n tc k 7 hk (by norm_num)]
      simp

theorem smoothIndices_lt (S T a : ℕ) (ha : a ∈ smoothIndices S T) :
    a < (T + 1) * (S + 1) := by
  obtain ⟨i, hi, ha⟩ := mem_flatMap_range _ _ _ ha
  obtain ⟨j, hj, ha⟩ := mem_flatMap_range _ _ _ ha
  simp only [List.mem_cons, List.not_mem_nil, or_false] at ha
  have h1 : (i + 1) * (S + 1) ≤ T * (S + 1) := Nat.mul_le_mul_right (S + 1) hi
  have e1 : (i + 1) * (S + 1) = i * (S + 1) + (S + 1) := by ring
  have e2 : (T + 1) * (S + 1) = T * (S + 1) + (S + 1) := by ring
  rcases ha with rfl | rfl | rfl | rfl | rfl | rfl <;> omega

theorem smoothLineIndices_lt (S T a : ℕ) (ha : a ∈ smoothLineIndices S T) :
    a < (T + 1) * (S + 1) := by
  obtain ⟨i, hi, ha⟩ := mem_flatMap_range _ _ _ ha
  obtain ⟨j, hj, ha⟩ := mem_flatMap_range _ _ _ ha
  simp only [List.mem_cons, List.not_mem_nil, or_false] at ha
  have h1 : (i + 1) * (S + 1) ≤ T * (S + 1) := Nat.mul_le_mul_right (S + 1) hi
  have e1 : (i + 1) * (S + 1) = i * (S + 1) + (S + 1) := by ring
  have e2 : (T + 1) * (S + 1) = T * (S + 1) + (S + 1) := by ring
  rcases ha with rfl | rfl | rfl | rfl <;> omega

theorem flatIndices_lt (S T a : ℕ) (ha : a ∈ flatIndices S T) :
    a < 4 * (S * T) := by
  obtain ⟨i, hi, ha⟩ := mem_flatMap_range _ _ _ ha
  obtain ⟨j, hj, ha⟩ := mem_flatMap_range _ _ _ ha
  simp only [List.mem_cons, List.not_mem_nil, or_false] at ha
  have h1 : (i + 1) * S ≤ T * S := Nat.mul_le_mul_right S hi
  have e1 : (i + 1) * S = i * S + S := by ring
  have e2 : S * T = T * S := Nat.mul_comm S T
  rcases ha with rfl | rfl | rfl | rfl | rfl | rfl <;> omega

theorem flatLineIndices_lt (S T a : ℕ) (ha : a ∈ flatLineIndices S T) :
    a < 4 * (S * T) := by
  obtain ⟨i, hi, ha⟩ := mem_flatMap_range _ _ _ ha
  obtain ⟨j, hj, ha⟩ := mem_flatMap_range _ _ _ ha
  simp only [List.mem_cons, List.not_mem_nil, or_false] at ha
  have h1 : (i + 1) * S ≤ T * S := Nat.mul_le_mul_right S hi
  have e1 : (i + 1) * S = i * S + S := by ring
  have e2 : S * T = T * S := Nat.mul_comm S T
  rcases ha with rfl | rfl | rfl | rfl <;> omega

theorem invariant_of_fields (s : Torus) (X : ℕ)
    (hv : s.vertices.length = 3 * X) (hn : s.normals.length = 3 * X)
    (ht : s.texCoords.length = 2 * X)
    (hi : ∀ idx ∈ s.indices, idx < X)
    (hl : ∀ idx ∈ s.lineIndices, idx < X)
    (hi3 : s.indices.length % 3 = 0) (hl2 : s.lineIndices.length % 2 = 0)
    (hinter : s.interleavedVertices
      = buildInterleavedVertices s.vertices s.normals s.texCoords) :
    s.invariant := by
  have hcnt : s.getVertexCount = X := by
    simp only [Torus.getVertexCount, hv]
    omega
  rw [Torus.invariant, hcnt]
  exact ⟨hv, hn, ht, hi, hl, hi3, hl2, hinter⟩

theorem invariant_changeUpAxis (f t : ℕ) (s : Torus) (h : s.invariant) :
    (changeUpAxisState f t s).invariant := by
  obtain ⟨h1, h2, h3, h4, h5, h6, h7, h8⟩ := h
  have hvlen := mapTriples_length (applyAxis f t) s.vertices
  have hnlen := mapTriples_length (applyAxis f t) s.normals
  apply invariant_of_fields _ s.getVertexCount
  · simpa [changeUpAxisState, hvlen] using h1
  · simpa [changeUpAxisState, hnlen] using h2
  · simpa [changeUpAxisState] using h3
  · simpa [changeUpAxisState] using h4
  · simpa [changeUpAxisState] using h5
  · simpa [changeUpAxisState] using h6
  · simpa [changeUpAxisState] using h7
  · show writeVNInter s.interleavedVertices _ _ = _
    rw [h8, writeVNInter_build _ _ _ _ _ (by rw [hvlen])]
    rfl

theorem invariant_buildSmooth (s : Torus) :
    (buildVerticesSmoothState s).invariant := by
  have base : (Torus.mk s.majorRadius s.minorRadius s.sectorCount s.sideCount
      s.smooth s.upAxis
      (smoothVertices s.majorRadius s.minorRadius s.sectorCount s.sideCount)
      (smoothNormals s.minorRadius s.sectorCount s.sideCount)
      (smoothTexCoords s.sectorCount s.sideCount)
      (smoothIndices s.sectorCount s.sideCount)
      (smoothLineIndices s.sectorCount s.sideCount)
      (buildInterleavedVertices
        (smoothVertices s.majorRadius s.minorRadius s.sectorCount s.sideCount)
        (smoothNormals s.minorRadius s.sectorCount s.sideCount)
        (smoothTexCoords s.sectorCount s.sideCount))
      s.interleavedStride).invariant := by
    apply invariant_of_fields _ ((s.sideCount + 1) * (s.sectorCount + 1))
    · exact smoothVertices_length _ _ _ _
    · exact smoothNormals_length _ _ _
    · exact smoothTexCoords_length _ _
    · exact fun idx h => smoothIndices_lt _ _ idx h
    · exact fun idx h => smoothLineIndices_lt _ _ idx h
    · rw [smoothIndices_length]; omega
    · rw [smoothLineIndices_length]; omega
    · rfl
  rw [buildVerticesSmoothState]
  split
  · exact invariant_changeUpAxis _ _ _ base
  · exact base

theorem invariant_buildFlat (s : Torus) :
    (buildVerticesFlatState s).invariant := by
  have base : (Torus.mk s.majorRadius s.minorRadius s.sectorCount s.sideCount
      s.smooth s.upAxis
      (flatVertices s.majorRadius s.minorRadius s.sectorCount s.sideCount)
      (flatNormals s.majorRadius s.minorRadius s.sectorCount s.sideCount)
      (flatTexCoords s.majorRadius s.minorRadius s.sectorCount s.sideCount)
      (flatIndices s.sectorCount s.sideCount)
      (flatLineIndices s.sectorCount s.sideCount)
      (buildInterleavedVertices
        (flatVertices s.majorRadius s.minorRadius s.sectorCount s.sideCount)
        (flatNormals s.majorRadius s.minorRadius s.sectorCount s.sideCount)
        (flatTexCoords s.majorRadius s.minorRadius s.sectorCount s.sideCount))
      s.interleavedStride).invariant := by
    apply invariant_of_fields _ (4 * (s.sectorCount * s.sideCount))
    · exact flatVertices_length _ _ _ _
    · exact flatNormals_length _ _ _ _
    · exact flatTexCoords_length _ _ _ _
    · exact fun idx h => flatIndices_lt _ _ idx h
    · exact fun idx h => flatLineIndices_lt _ _ idx h
    · rw [flatIndices_length]; omega
    · rw [flatLineIndices_length]; omega
    · rfl
  rw [buildVerticesFlatState]
  split
  · exact invariant_changeUpAxis _ _ _ base
  · exact base

theorem invariant_set (s : Torus) (R r : ℝ) (sec sid : ℤ) (sm : Bool) (up : ℤ) :
    (Torus.set s R r sec sid sm up).invariant := by
  rw [Torus.set]
  split
  · exact invariant_buildSmooth _
  · exact invariant_buildFlat _

theorem buildSmooth_vertices_length (s : Torus) :
    (buildVerticesSmoothState s).vertices.length
      = 3 * ((s.sideCount + 1) * (s.sectorCount + 1)) := by
  rw [buildVerticesSmoothState]
  split <;> simp [changeUpAxisState, mapTriples_length, smoothVertices_length]

theorem buildSmooth_indices_length (s : Torus) :
    (buildVerticesSmoothState s).indices.length
      = 3 * (2 * (s.sectorCount * s.sideCount)) := by
  rw [buildVerticesSmoothState]
  split <;> simp [changeUpAxisState, smoothIndices_length]

theorem buildSmooth_lineIndices_length (s : Torus) :
    (buildVerticesSmoothState s).lineIndices.length
      = 4 * (s.sectorCount * s.sideCount) := by
  rw [buildVerticesSmoothState]
  split <;> simp [changeUpAxisState, smoothLineIndices_length]

theorem buildFlat_vertices_length (s : Torus) :
    (buildVerticesFlatState s).vertices.length
      = 3 * (4 * (s.sectorCount * s.sideCount)) := by
  rw [buildVerticesFlatState]
  split <;> simp [changeUpAxisState, mapTriples_length, flatVertices_length]

theorem buildFlat_indices_length (s : Torus) :
    (buildVerticesFlatState s).indices.length
      = 3 * (2 * (s.sectorCount * s.sideCount)) := by
  rw [buildVerticesFlatState]
  split <;> simp [changeUpAxisState, flatIndices_length]

theorem buildFlat_lineIndices_length (s : Torus) :
    (buildVerticesFlatState s).lineIndices.length
      = 4 * (s.sectorCount * s.sideCount) := by
  rw [buildVerticesFlatState]
  split <;> simp [changeUpAxisState, flatLineIndices_length]

theorem buildSmooth_scalars (s : Torus) :
    (buildVerticesSmoothState s).majorRadius = s.majorRadius ∧
    (buildVerticesSmoothState s).minorRadius = s.minorRadius ∧
    (buildVerticesSmoothState s).sectorCount = s.sectorCount ∧
    (buildVerticesSmoothState s).sideCount = s.sideCount ∧
    (buildVerticesSmoothState s).smooth = s.smooth ∧
    (buildVerticesSmoothState s).upAxis = s.upAxis ∧
    (buildVerticesSmoothState s).interleavedStride = s.interleavedStride := by
  rw [buildVerticesSmoothState]
  split <;> simp [changeUpAxisState]

theorem buildFlat_scalars (s : Torus) :
    (buildVerticesFlatState s).majorRadius = s.majorRadius ∧
    (buildVerticesFlatState s).minorRadius = s.minorRadius ∧
    (buildVerticesFlatState s).sectorCount = s.sectorCount ∧
    (buildVerticesFlatState s).sideCount = s.sideCount ∧
    (buildVerticesFlatState s).smooth = s.smooth ∧
    (buildVerticesFlatState s).upAxis = s.upAxis ∧
    (buildVerticesFlatState s).interleavedStride = s.interleavedStride := by
  rw [buildVerticesFlatState]
  split <;> simp [changeUpAxisState]

/-- C1: every state produced by construction or by a setter satisfies the
mesh invariant: positions, normals and texCoords describe the same vertex
count, every triangle index and line index is strictly below that count,
the triangle index array length is a multiple of 3 and the line index
array length a multiple of 2 (the invariant also records that the
interleaved array is the packing of the three attribute arrays). -/
theorem c1_mesh_invariant :
    (∀ (s : Torus) (R r : ℝ) (sec sid : ℤ) (sm : Bool) (up : ℤ),
        (Torus.set s R r sec sid sm up).invariant) ∧
    (∀ (g : Torus) (R r : ℝ) (sec sid : ℤ) (sm : Bool) (up : ℤ),
        (Torus.ctor R r sec sid sm up g).invariant) ∧
    (∀ (s : Torus) (R : ℝ), s.invariant → (s.setMajorRadius R).invariant) ∧
    (∀ (s : Torus) (r : ℝ), s.invariant → (s.setMinorRadius r).invariant) ∧
    (∀ (s : Torus) (sec : ℤ), s.invariant → (s.setSectorCount sec).invariant) ∧
    (∀ (s : Torus) (sid : ℤ), s.invariant → (s.setSideCount sid).invariant) ∧
    (∀ (s : Torus) (sm : Bool), s.invariant → (s.setSmooth sm).invariant) ∧
    (∀ (s : Torus) (up : ℤ), s.invariant → (s.setUpAxis up).invariant) := by
  refine ⟨invariant_set, ?_, ?_, ?_, ?_, ?_, ?_, ?_⟩
  · intro g R r sec sid sm up
    exact invariant_set _ _ _ _ _ _ _
  · intro s R h
    rw [Torus.setMajorRadius]
    split
    · exact invariant_set _ _ _ _ _ _ _
    · exact h
  · intro s r h
    rw [Torus.setMinorRadius]
    split
    · exact invariant_set _ _ _ _ _ _ _
    · exact h
  · intro s sec h
    rw [Torus.setSectorCount]
    split
    · exact invariant_set _ _ _ _ _ _ _
    · exact h
  · intro s sid h
    rw [Torus.setSideCount]
    split
    · exact invariant_set _ _ _ _ _ _ _
    · exact h
  · intro s sm h
    rw [Torus.setSmooth]
    split
    · exact h
    · split
      · exact invariant_buildSmooth _
      · exact invariant_buildFlat _
  · intro s up h
    rw [Torus.setUpAxis]
    split
    · exact h
    · exact invariant_changeUpAxis s.upAxis up.toNat s h

/-- witness for C1 at concrete inputs: a freshly set state satisfies the
invariant, and the invariant survives a subsequent up-axis change. -/
theorem c1_mesh_invariant_witness :
    (Torus.set t0 1 (1 / 2) 4 3 true 3).invariant ∧
    ((Torus.set t0 1 (1 / 2) 4 3 true 3).setUpAxis 1).invariant :=
  ⟨c1_mesh_invariant.1 t0 1 (1 / 2) 4 3 true 3,
   c1_mesh_invariant.2.2.2.2.2.2.2 _ 1
     (c1_mesh_invariant.1 t0 1 (1 / 2) 4 3 true 3)⟩

/-- C2: for every clamped sector (ring) count S and side (tube) count T,
smooth mode emits (T + 1) * (S + 1) vertices, flat mode 4 * S * T
vertices, both modes 2 * S * T triangles and 4 * S * T line indices; in
particular sectors = 4, sides = 3, smooth gives vertex count 20, triangle
count 24 and line index count 48. -/
theorem c2_counts :
    (∀ (s : Torus) (R r : ℝ) (sec sid : ℤ) (sm : Bool) (up : ℤ),
        (Torus.set s R r sec sid sm up).getVertexCount
          = (if sm then (clampSideCount sid + 1) * (clampSectorCount sec + 1)
             else 4 * (clampSectorCount sec * clampSideCount sid)) ∧
        (Torus.set s R r sec sid sm up).getTriangleCount
          = 2 * (clampSectorCount sec * clampSideCount sid) ∧
        (Torus.set s R r sec sid sm up).getLineIndexCount
          = 4 * (clampSectorCount sec * clampSideCount sid)) ∧
    (∀ s : Torus,
        (Torus.set s 1 (1 / 2) 4 3 true 3).getVertexCount = 20 ∧
        (Torus.set s 1 (1 / 2) 4 3 true 3).getTriangleCount = 24 ∧
        (Torus.set s 1 (1 / 2) 4 3 true 3).getLineIndexCount = 48) := by
  have main : ∀ (s : Torus) (R r : ℝ) (sec sid : ℤ) (sm : Bool) (up : ℤ),
      (Torus.set s R r sec sid sm up).getVertexCount
        = (if sm then (clampSideCount sid + 1) * (clampSectorCount sec + 1)
           else 4 * (clampSectorCount sec * clampSideCount sid)) ∧
      (Torus.set s R r sec sid sm up).getTriangleCount
        = 2 * (clampSectorCount sec * clampSideCount sid) ∧
      (Torus.set s R r sec sid sm up).getLineIndexCount
        = 4 * (clampSectorCount sec * clampSideCount sid) := by
    intro s R r sec sid sm up
    rw [Torus.set]
    set s1 : Torus :=
      { s with
        majorRadius := if 0 < R then R else s.majorRadius
        minorRadius := if 0 < r then r else s.minorRadius
        sectorCount := clampSectorCount sec
        sideCount := clampSideCount sid
        smooth := sm
        upAxis := clampUpAxis up } with hs1
    have e1 : s1.sectorCount = clampSectorCount sec := rfl
    have e2 : s1.sideCount = clampSideCount sid := rfl
    cases sm with
    | true =>
        rw [if_pos rfl, if_pos rfl]
        refine ⟨?_, ?_, ?_⟩
        · rw [Torus.getVertexCount, buildSmooth_vertices_length, e1, e2]
          omega
        · rw [Torus.getTriangleCount, Torus.getIndexCount,
            buildSmooth_indices_length, e1, e2]
          omega
        · rw [Torus.getLineIndexCount, buildSmooth_lineIndices_length, e1, e2]
    | false =>
        rw [if_neg Bool.false_ne_true, if_neg Bool.false_ne_true]
        refine ⟨?_, ?_, ?_⟩
        · rw [Torus.getVertexCount, buildFlat_vertices_length, e1, e2]
          omega
        · rw [Torus.getTriangleCount, Torus.getIndexCount,
            buildFlat_indices_length, e1, e2]
          omega
        · rw [Torus.getLineIndexCount, buildFlat_lineIndices_length, e1, e2]
  refine ⟨main, ?_⟩
  intro s
  have h := main s 1 (1 / 2) 4 3 true 3
  have hsec : clampSectorCount 4 = 4 := by
    rw [clampSectorCount, if_neg (by norm_num)]
    rfl
  have hsid : clampSideCount 3 = 3 := by
    rw [clampSideCount, if_neg (by norm_num)]
    rfl
  rw [hsec, hsid, if_pos rfl] at h
  norm_num at h
  exact h

/-- C4: for every input to set, the stored sector (ring) count equals the
request when at least 3 and is 3 otherwise; the stored side (tube) count
equals the request when at least 2 and is 2 otherwise; the stored axis
equals the request when in 1..3 and is 3 otherwise; each stored radius
equals the request when positive and keeps the prior value otherwise.
The function is total, so no error is ever raised. -/
theorem c4_set_clamping (s : Torus) (R r : ℝ) (sec sid : ℤ) (sm : Bool) (up : ℤ) :
    ((Torus.set s R r sec sid sm up).sectorCount : ℤ)
      = (if 3 ≤ sec then sec else 3) ∧
    ((Torus.set s R r sec sid sm up).sideCount : ℤ)
      = (if 2 ≤ sid then sid else 2) ∧
    ((Torus.set s R r sec sid sm up).upAxis : ℤ)
      = (if 1 ≤ up ∧ up ≤ 3 then up else 3) ∧
    (Torus.set s R r sec sid sm up).majorRadius
      = (if 0 < R then R else s.majorRadius) ∧
    (Torus.set s R r sec sid sm up).minorRadius
      = (if 0 < r then r else s.minorRadius) := by
  rw [Torus.set]
  set s1 : Torus :=
    { s with
      majorRadius := if 0 < R then R else s.majorRadius
      minorRadius := if 0 < r then r else s.minorRadius
      sectorCount := clampSectorCount sec
      sideCount := clampSideCount sid
      smooth := sm
      upAxis := clampUpAxis up } with hs1
  have hsec : ((s1.sectorCount : ℤ)) = (if 3 ≤ sec then sec else 3) := by
    show ((clampSectorCount sec : ℕ) : ℤ) = _
    rw [clampSectorCount]
    split <;> split <;> omega
  have hsid : ((s1.sideCount : ℤ)) = (if 2 ≤ sid then sid else 2) := by
    show ((clampSideCount sid : ℕ) : ℤ) = _
    rw [clampSideCount]
    split <;> split <;> omega
  have hup : ((s1.upAxis : ℤ)) = (if 1 ≤ up ∧ up ≤ 3 then up else 3) := by
    show ((clampUpAxis up : ℕ) : ℤ) = _
    rw [clampUpAxis]
    split <;> split <;> omega
  have hR : s1.majorRadius = (if 0 < R then R else s.majorRadius) := rfl
  have hr : s1.minorRadius = (if 0 < r then r else s.minorRadius) := rfl
  split
  · obtain ⟨g1, g2, g3, g4, g5, g6, g7⟩ := buildSmooth_scalars s1
    exact ⟨by rw [g3, hsec], by rw [g4, hsid], by rw [g6, hup],
      by rw [g1, hR], by rw [g2, hr]⟩
  · obtain ⟨g1, g2, g3, g4, g5, g6, g7⟩ := buildFlat_scalars s1
    exact ⟨by rw [g3, hsec], by rw [g4, hsid], by rw [g6, hup],
      by rw [g1, hR], by rw [g2, hr]⟩

/-- C9: an axis remap touches neither texCoords nor any index array, and
a normal flip touches neither lineIndices nor positions nor texCoords;
both leave the triangle index array length (hence the triangle count)
unchanged. -/
theorem c9_frame (s : Torus) (f t : ℕ) :
    (changeUpAxisState f t s).texCoords = s.texCoords ∧
    (changeUpAxisState f t s).indices = s.indices ∧
    (changeUpAxisState f t s).lineIndices = s.lineIndices ∧
    (changeUpAxisState f t s).indices.length = s.indices.length ∧
    (reverseNormalsState s).lineIndices = s.lineIndices ∧
    (reverseNormalsState s).vertices = s.vertices ∧
    (reverseNormalsState s).texCoords = s.texCoords ∧
    (reverseNormalsState s).indices.length = s.indices.length := by
  refine ⟨rfl, rfl, rfl, rfl, rfl, rfl, rfl, ?_⟩
  show (mapTriples _ s.indices).length = s.indices.length
  exact mapTriples_length _ s.indices

/-- the 8-float record layout the claim describes: one record per vertex,
positions in slots 0..2, normals in slots 3..5, texture coordinates in
slots 6..7. -/
def interleavedLayoutOK (s : Torus) : Prop :=
  s.interleavedVertices.length = 8 * s.getVertexCount ∧
  ∀ k < s.getVertexCount,
    s.interleavedVertices.getD (8 * k) 0 = s.vertices.getD (3 * k) 0 ∧
    s.interleavedVertices.getD (8 * k + 1) 0 = s.vertices.getD (3 * k + 1) 0 ∧
    s.interleavedVertices.getD (8 * k + 2) 0 = s.vertices.getD (3 * k + 2) 0 ∧
    s.interleavedVertices.getD (8 * k + 3) 0 = s.normals.getD (3 * k) 0 ∧
    s.interleavedVertices.getD (8 * k + 4) 0 = s.normals.getD (3 * k + 1) 0 ∧
    s.interleavedVertices.getD (8 * k + 5) 0 = s.normals.getD (3 * k + 2) 0 ∧
    s.interleavedVertices.getD (8 * k + 6) 0 = s.texCoords.getD (2 * k) 0 ∧
    s.interleavedVertices.getD (8 * k + 7) 0 = s.texCoords.getD (2 * k + 1) 0

theorem layout_of_invariant (s : Torus) (h : s.invariant) :
    interleavedLayoutOK s := by
  obtain ⟨h1, h2, h3, h4, h5, h6, h7, h8⟩ := h
  have hrec : (s.vertices.length + 2) / 3 = s.getVertexCount := by
    rw [h1]
    omega
  constructor
  · rw [h8, buildInterleavedVertices_length, hrec]
    ring
  · intro k hk
    have hk' : k < (s.vertices.length + 2) / 3 := by rw [hrec]; exact hk
    have g0 := buildInterleavedVertices_getD s.vertices s.normals s.texCoords
      k 0 hk' (by norm_num)
    have g1 := buildInterleavedVertices_getD s.vertices s.normals s.texCoords
      k 1 hk' (by norm_num)
    have g2 := buildInterleavedVertices_getD s.vertices s.normals s.texCoords
      k 2 hk' (by norm_num)
    have g3 := buildInterleavedVertices_getD s.vertices s.normals s.texCoords
      k 3 hk' (by norm_num)
    have g4 := buildInterleavedVertices_getD s.vertices s.normals s.texCoords
      k 4 hk' (by norm_num)
    have g5 := buildInterleavedVertices_getD s.vertices s.normals s.texCoords
      k 5 hk' (by norm_num)
    have g6 := buildInterleavedVertices_getD s.vertices s.normals s.texCoords
      k 6 hk' (by norm_num)
    have g7 := buildInterleavedVertices_getD s.vertices s.normals s.texCoords
      k 7 hk' (by norm_num)
    simp only [Nat.add_zero] at g0 g1 g2 g3 g4 g5 g6 g7
    rw [h8]
    norm_num [List.getD_cons_zero, List.getD_cons_succ] at g0 g1 g2 g3 g4 g5 g6 g7
    simp only [List.getD_eq_getElem?_getD]
    exact ⟨g0, g1, g2, g3, g4, g5, g6, g7⟩

theorem set_stride (s : Torus) (R r : ℝ) (sec sid : ℤ) (sm : Bool) (up : ℤ) :
    (Torus.set s R r sec sid sm up).interleavedStride = s.interleavedStride := by
  rw [Torus.set]
  split
  · exact (buildSmooth_scalars _).2.2.2.2.2.2
  · exact (buildFlat_scalars _).2.2.2.2.2.2

/-- C3: after every rebuild the interleaved array holds exactly 8 floats
per vertex and, for every vertex index k, its record holds the three
position floats, then the three normal floats, then the two texture
floats of vertex k (the same layout holds in every state satisfying the
mesh invariant, hence after every rebuild path); the constructor
advertises a 32-byte stride and set never changes it. -/
theorem c3_interleaved (s : Torus) (R r : ℝ) (sec sid : ℤ) (sm : Bool) (up : ℤ) :
    interleavedLayoutOK (Torus.set s R r sec sid sm up) ∧
    (∀ s1 : Torus, s1.invariant → interleavedLayoutOK s1) ∧
    (Torus.ctor R r sec sid sm up s).interleavedStride = 32 ∧
    (Torus.set s R r sec sid sm up).interleavedStride = s.interleavedStride := by
  refine ⟨layout_of_invariant _ (invariant_set s R r sec sid sm up),
    fun s1 h => layout_of_invariant s1 h, ?_,
    set_stride s R r sec sid sm up⟩
  rw [Torus.ctor, set_stride]

/-- a tiny concrete consistent mesh state used by concrete witness checks. -/
noncomputable def w5 : Torus :=
  { t0 with
    vertices := [1, 2, 3]
    normals := [4, 5, 6]
    texCoords := [7, 8]
    interleavedVertices := buildInterleavedVertices [1, 2, 3] [4, 5, 6] [7, 8] }

/-- witness for C3: the layout conclusion instantiated at a concrete
state, the invariant hypothesis discharged on the tiny consistent state. -/
theorem c3_interleaved_witness : interleavedLayoutOK w5 := by
  have hw : w5.invariant := by
    rw [Torus.invariant]
    refine ⟨?_, ?_, ?_, ?_, ?_, ?_, ?_, ?_⟩ <;>
      simp [w5, t0, Torus.getVertexCount]
  exact (c3_interleaved t0 1 (1 / 2) 4 3 true 3).2.1 w5 hw

theorem applyAxis_roundtrip (f t : ℕ) (hf : f = 1 ∨ f = 2 ∨ f = 3)
    (ht : t = 1 ∨ t = 2 ∨ t = 3) (hne : f ≠ t) (p : ℝ × ℝ × ℝ) :
    applyAxis t f (applyAxis f t p) = p := by
  obtain ⟨x, y, z⟩ := p
  rcases hf with rfl | rfl | rfl <;> rcases ht with rfl | rfl | rfl <;>
    first
      | exact absurd rfl hne
      | simp [applyAxis, axisCols]

theorem applyAxis_normSq (f t : ℕ) (p : ℝ × ℝ × ℝ) :
    normSq (applyAxis f t p) = normSq p := by
  obtain ⟨x, y, z⟩ := p
  rw [applyAxis, axisCols]
  split_ifs <;> simp [normSq] <;> ring

/-- C5: for every mesh state whose interleaved array is consistent, and
every ordered axis pair (f, t) with f and t in 1..3 and f different from
t, remapping f to t and then t to f restores every position, every normal
and the whole interleaved array exactly; moreover every single remap
preserves the squared euclidean length of each transformed triple. -/
theorem c5_axis_roundtrip (s : Torus) (f t : ℕ)
    (hf : f = 1 ∨ f = 2 ∨ f = 3) (ht : t = 1 ∨ t = 2 ∨ t = 3) (hne : f ≠ t)
    (hinter : s.interleavedVertices
      = buildInterleavedVertices s.vertices s.normals s.texCoords) :
    (changeUpAxisState t f (changeUpAxisState f t s)).vertices = s.vertices ∧
    (changeUpAxisState t f (changeUpAxisState f t s)).normals = s.normals ∧
    (changeUpAxisState t f (changeUpAxisState f t s)).interleavedVertices
      = s.interleavedVertices ∧
    (∀ p : ℝ × ℝ × ℝ, normSq (applyAxis f t p) = normSq p) := by
  have hro : ∀ l : List ℝ,
      mapTriples (applyAxis t f) (mapTriples (applyAxis f t) l) = l := by
    intro l
    rw [mapTriples_mapTriples]
    exact mapTriples_id _ (fun p => applyAxis_roundtrip f t hf ht hne p) l
  have hv := hro s.vertices
  have hn := hro s.normals
  refine ⟨hv, hn, ?_, fun p => applyAxis_normSq f t p⟩
  show writeVNInter
      (writeVNInter s.interleavedVertices
        (mapTriples (applyAxis f t) s.vertices)
        (mapTriples (applyAxis f t) s.normals))
      (mapTriples (applyAxis t f) (mapTriples (applyAxis f t) s.vertices))
      (mapTriples (applyAxis t f) (mapTriples (applyAxis f t) s.normals))
      = s.interleavedVertices
  rw [hinter,
    writeVNInter_build _ _ _ _ _ (mapTriples_length _ _),
    writeVNInter_build _ _ _ _ _ (mapTriples_length _ _),
    hv, hn]

/-- witness for C5: the X to Y remap followed by the Y to X remap on a
concrete one-vertex state, plus length preservation at a concrete triple. -/
theorem c5_axis_roundtrip_witness :
    (changeUpAxisState 2 1 (changeUpAxisState 1 2 w5)).vertices = w5.vertices ∧
    (changeUpAxisState 2 1 (changeUpAxisState 1 2 w5)).normals = w5.normals ∧
    (changeUpAxisState 2 1 (changeUpAxisState 1 2 w5)).interleavedVertices
      = w5.interleavedVertices ∧
    normSq (applyAxis 1 2 (1, 2, 3)) = normSq (1, 2, 3) := by
  have h := c5_axis_roundtrip w5 1 2 (by norm_num) (by norm_num) (by norm_num) rfl
  exact ⟨h.1, h.2.1, h.2.2.1, h.2.2.2 (1, 2, 3)⟩

/-- C6: on every mesh state with aligned arrays and a consistent
interleaved array, calling reverseNormals twice restores every normal,
every interleaved entry (in particular every interleaved normal slot) and
every triangle index exactly; a single call negates every normal
component and swaps the first and last index of every triangle. -/
theorem c6_reverseNormals_involutive (s : Torus)
    (hn : s.normals.length = s.vertices.length)
    (h3 : s.normals.length % 3 = 0)
    (hinter : s.interleavedVertices
      = buildInterleavedVertices s.vertices s.normals s.texCoords) :
    (reverseNormalsState (reverseNormalsState s)).normals = s.normals ∧
    (reverseNormalsState (reverseNormalsState s)).indices = s.indices ∧
    (reverseNormalsState (reverseNormalsState s)).interleavedVertices
      = s.interleavedVertices ∧
    (∀ idx : ℕ,
      (reverseNormalsState s).normals.getD idx 0 = -(s.normals.getD idx 0)) ∧
    (∀ q : ℕ, 3 * q + 2 < s.indices.length →
      (reverseNormalsState s).indices.getD (3 * q) 0
          = s.indices.getD (3 * q + 2) 0 ∧
      (reverseNormalsState s).indices.getD (3 * q + 1) 0
          = s.indices.getD (3 * q + 1) 0 ∧
      (reverseNormalsState s).indices.getD (3 * q + 2) 0
          = s.indices.getD (3 * q) 0) := by
  have hnn : ∀ l : List ℝ,
      mapTriples (fun p : ℝ × ℝ × ℝ => (-p.1, -p.2.1, -p.2.2))
        (mapTriples (fun p : ℝ × ℝ × ℝ => (-p.1, -p.2.1, -p.2.2)) l) = l := by
    intro l
    rw [mapTriples_mapTriples]
    exact mapTriples_id _ (fun p => by simp) l
  have hss : mapTriples (fun p : ℕ × ℕ × ℕ => (p.2.2, p.2.1, p.1))
      (mapTriples (fun p : ℕ × ℕ × ℕ => (p.2.2, p.2.1, p.1)) s.indices)
        = s.indices := by
    rw [mapTriples_mapTriples]
    exact mapTriples_id _ (fun p => by simp) s.indices
  refine ⟨hnn s.normals, hss, ?_, ?_, ?_⟩
  · show writeNInter
        (writeNInter s.interleavedVertices
          (mapTriples (fun p : ℝ × ℝ × ℝ => (-p.1, -p.2.1, -p.2.2)) s.normals))
        (mapTriples (fun p : ℝ × ℝ × ℝ => (-p.1, -p.2.1, -p.2.2))
          (mapTriples (fun p : ℝ × ℝ × ℝ => (-p.1, -p.2.1, -p.2.2)) s.normals))
        = s.interleavedVertices
    rw [hinter,
      writeNInter_build _ _ _ _ ((mapTriples_length _ _).trans hn),
      writeNInter_build _ _ _ _
        (((mapTriples_length _ _).trans ((mapTriples_length _ _).trans hn))),
      hnn s.normals]
  · intro idx
    show (mapTriples (fun p : ℝ × ℝ × ℝ => (-p.1, -p.2.1, -p.2.2))
        s.normals).getD idx 0 = -(s.normals.getD idx 0)
    rw [mapTriples_neg s.normals h3]
    have h0 : (0 : ℝ) = -0 := by norm_num
    calc (s.normals.map (fun a => -a)).getD idx 0
        = (s.normals.map (fun a => -a)).getD idx (-0) := by norm_num
      _ = -(s.normals.getD idx 0) := List.getD_map _ _ _
  · intro q hq
    have h := mapTriples_getD_triple
      (fun p : ℕ × ℕ × ℕ => (p.2.2, p.2.1, p.1)) 0 s.indices q hq
    simp only [Prod.mk.injEq] at h
    exact ⟨h.1, h.2.1, h.2.2⟩

/-- witness for C6 on a concrete one-vertex, one-triangle state. -/
theorem c6_reverseNormals_involutive_witness :
    (reverseNormalsState (reverseNormalsState
        { w5 with indices := [0, 1, 2] })).normals
      = ({ w5 with indices := [0, 1, 2] } : Torus).normals ∧
    (reverseNormalsState (reverseNormalsState
        { w5 with indices := [0, 1, 2] })).indices = [0, 1, 2] := by
  have h := c6_reverseNormals_involutive { w5 with indices := [0, 1, 2] }
    (by rfl) (by rfl) rfl
  exact ⟨h.1, h.2.1⟩

/-- the cross product of the edge vectors v1 to v2 and v1 to v3, written
from the words of the specification for comparison with the code of
computeFaceNormal. -/
def crossEdges (x1 y1 z1 x2 y2 z2 x3 y3 z3 : ℝ) : ℝ × ℝ × ℝ :=
  ((y2 - y1) * (z3 - z1) - (z2 - z1) * (y3 - y1),
   (z2 - z1) * (x3 - x1) - (x2 - x1) * (z3 - z1),
   (x2 - x1) * (y3 - y1) - (y2 - y1) * (x3 - x1))

theorem flatNormals_getD (R r : ℝ) (S T i j mm : ℕ)
    (hi : i < T) (hj : j < S) (hmm : mm < 12) :
    (flatNormals R r S T).getD (12 * (i * S + j) + mm) 0
      = ([(flatFaceNormal R r S T i j).1,
          (flatFaceNormal R r S T i j).2.1,
          (flatFaceNormal R r S T i j).2.2,
          (flatFaceNormal R r S T i j).1,
          (flatFaceNormal R r S T i j).2.1,
          (flatFaceNormal R r S T i j).2.2,
          (flatFaceNormal R r S T i j).1,
          (flatFaceNormal R r S T i j).2.1,
          (flatFaceNormal R r S T i j).2.2,
          (flatFaceNormal R r S T i j).1,
          (flatFaceNormal R r S T i j).2.1,
          (flatFaceNormal R r S T i j).2.2]).getD mm 0 := by
  have e : 12 * (i * S + j) + mm = (S * 12) * i + (12 * j + mm) := by ring
  rw [e, flatNormals]
  exact flatMap_grid_getD _ 12 T S i j mm 0 (fun i j => rfl) hi hj hmm

theorem computeFaceNormal_spec (x1 y1 z1 x2 y2 z2 x3 y3 z3 : ℝ) :
    (Real.sqrt (normSq (crossEdges x1 y1 z1 x2 y2 z2 x3 y3 z3)) ≤ 0.000001 →
      computeFaceNormal x1 y1 z1 x2 y2 z2 x3 y3 z3 = (0, 0, 0)) ∧
    (0.000001 < Real.sqrt (normSq (crossEdges x1 y1 z1 x2 y2 z2 x3 y3 z3)) →
      computeFaceNormal x1 y1 z1 x2 y2 z2 x3 y3 z3
        = ((crossEdges x1 y1 z1 x2 y2 z2 x3 y3 z3).1
            * (1 / Real.sqrt (normSq (crossEdges x1 y1 z1 x2 y2 z2 x3 y3 z3))),
           (crossEdges x1 y1 z1 x2 y2 z2 x3 y3 z3).2.1
            * (1 / Real.sqrt (normSq (crossEdges x1 y1 z1 x2 y2 z2 x3 y3 z3))),
           (crossEdges x1 y1 z1 x2 y2 z2 x3 y3 z3).2.2
            * (1 / Real.sqrt (normSq (crossEdges x1 y1 z1 x2 y2 z2 x3 y3 z3)))) ∧
      normSq (computeFaceNormal x1 y1 z1 x2 y2 z2 x3 y3 z3) = 1) := by
  have harg : ((y2 - y1) * (z3 - z1) - (z2 - z1) * (y3 - y1))
        * ((y2 - y1) * (z3 - z1) - (z2 - z1) * (y3 - y1))
      + ((z2 - z1) * (x3 - x1) - (x2 - x1) * (z3 - z1))
        * ((z2 - z1) * (x3 - x1) - (x2 - x1) * (z3 - z1))
      + ((x2 - x1) * (y3 - y1) - (y2 - y1) * (x3 - x1))
        * ((x2 - x1) * (y3 - y1) - (y2 - y1) * (x3 - x1))
      = normSq (crossEdges x1 y1 z1 x2 y2 z2 x3 y3 z3) := by
    simp only [normSq, crossEdges]
    ring
  constructor
  · intro h
    rw [computeFaceNormal]
    rw [harg, if_neg (not_lt.mpr h)]
  · intro h
    have hres : computeFaceNormal x1 y1 z1 x2 y2 z2 x3 y3 z3
        = ((crossEdges x1 y1 z1 x2 y2 z2 x3 y3 z3).1
            * (1 / Real.sqrt (normSq (crossEdges x1 y1 z1 x2 y2 z2 x3 y3 z3))),
           (crossEdges x1 y1 z1 x2 y2 z2 x3 y3 z3).2.1
            * (1 / Real.sqrt (normSq (crossEdges x1 y1 z1 x2 y2 z2 x3 y3 z3))),
           (crossEdges x1 y1 z1 x2 y2 z2 x3 y3 z3).2.2
            * (1 / Real.sqrt (normSq (crossEdges x1 y1 z1 x2 y2 z2 x3 y3 z3)))) := by
      rw [computeFaceNormal]
      rw [harg, if_pos h]
      rfl
    refine ⟨hres, ?_⟩
    rw [hres]
    set c := crossEdges x1 y1 z1 x2 y2 z2 x3 y3 z3 with hc
    set len := Real.sqrt (normSq c) with hlen
    have hq : (0 : ℝ) ≤ normSq c := by
      rw [normSq]
      positivity
    have hlpos : 0 < len := lt_trans (by norm_num) h
    have hsq : len ^ 2 = normSq c := Real.sq_sqrt hq
    have hqpos : 0 < normSq c := hsq ▸ pow_pos hlpos 2
    have e : normSq (c.1 * (1 / len), c.2.1 * (1 / len), c.2.2 * (1 / len))
        = normSq c / len ^ 2 := by
      rw [normSq, normSq]
      field_simp
    rw [e, hsq]
    exact div_self hqpos.ne'

/-- C7: in flat mode every quad stores one identical normal for its four
corners, namely computeFaceNormal of the corners v1, v2, v3; and
computeFaceNormal returns exactly the zero vector when the length of the
cross product of the edges v1 to v2 and v1 to v3 is at most the epsilon
0.000001, and otherwise the unit vector obtained by scaling that cross
product by the inverse of its length (in this real-number model no NaN or
infinity can arise: the near-zero division is guarded away). -/
theorem c7_flat_face_normals :
    (∀ x1 y1 z1 x2 y2 z2 x3 y3 z3 : ℝ,
      (Real.sqrt (normSq (crossEdges x1 y1 z1 x2 y2 z2 x3 y3 z3)) ≤ 0.000001 →
        computeFaceNormal x1 y1 z1 x2 y2 z2 x3 y3 z3 = (0, 0, 0)) ∧
      (0.000001 < Real.sqrt (normSq (crossEdges x1 y1 z1 x2 y2 z2 x3 y3 z3)) →
        computeFaceNormal x1 y1 z1 x2 y2 z2 x3 y3 z3
          = ((crossEdges x1 y1 z1 x2 y2 z2 x3 y3 z3).1
              * (1 / Real.sqrt (normSq (crossEdges x1 y1 z1 x2 y2 z2 x3 y3 z3))),
             (crossEdges x1 y1 z1 x2 y2 z2 x3 y3 z3).2.1
              * (1 / Real.sqrt (normSq (crossEdges x1 y1 z1 x2 y2 z2 x3 y3 z3))),
             (crossEdges x1 y1 z1 x2 y2 z2 x3 y3 z3).2.2
              * (1 / Real.sqrt (normSq (crossEdges x1 y1 z1 x2 y2 z2 x3 y3 z3)))) ∧
        normSq (computeFaceNormal x1 y1 z1 x2 y2 z2 x3 y3 z3) = 1)) ∧
    (∀ (R r : ℝ) (S T i j mm : ℕ), i < T → j < S → mm < 4 →
      ((flatNormals R r S T).getD (12 * (i * S + j) + 3 * mm) 0,
       (flatNormals R r S T).getD (12 * (i * S + j) + (3 * mm + 1)) 0,
       (flatNormals R r S T).getD (12 * (i * S + j) + (3 * mm + 2)) 0)
        = flatFaceNormal R r S T i j) := by
  refine ⟨computeFaceNormal_spec, ?_⟩
  intro R r S T i j mm hi hj hmm
  have g0 := flatNormals_getD R r S T i j (3 * mm) hi hj (by omega)
  have g1 := flatNormals_getD R r S T i j (3 * mm + 1) hi hj (by omega)
  have g2 := flatNormals_getD R r S T i j (3 * mm + 2) hi hj (by omega)
  rw [g0, g1, g2]
  interval_cases mm <;>
    norm_num [List.getD_cons_zero, List.getD_cons_succ]

/-- witness for C7: the fully degenerate triangle yields the exact zero
vector, and the first normal triple of a concrete flat build equals its
quad face normal. -/
theorem c7_flat_face_normals_witness :
    computeFaceNormal 0 0 0 0 0 0 0 0 0 = (0, 0, 0) ∧
    ((flatNormals 1 1 1 1).getD 0 0, (flatNormals 1 1 1 1).getD 1 0,
     (flatNormals 1 1 1 1).getD 2 0) = flatFaceNormal 1 1 1 1 0 0 := by
  constructor
  · apply (c7_flat_face_normals.1 0 0 0 0 0 0 0 0 0).1
    have e : crossEdges 0 0 0 0 0 0 0 0 0 = (0, 0, 0) := by
      rw [crossEdges]
      norm_num
    rw [e]
    have e2 : normSq ((0 : ℝ), (0 : ℝ), (0 : ℝ)) = 0 := by
      rw [normSq]
      norm_num
    rw [e2, Real.sqrt_zero]
    norm_num
  · have h := c7_flat_face_normals.2 1 1 1 1 0 0 0 (by norm_num) (by norm_num)
      (by norm_num)
    norm_num at h
    exact h

theorem smoothNormals_getD (r : ℝ) (S T i j mm : ℕ)
    (hi : i < T + 1) (hj : j < S + 1) (hmm : mm < 3) :
    (smoothNormals r S T).getD (3 * (i * (S + 1) + j) + mm) 0
      = ([(smoothNormalAt r S T i j).1,
          (smoothNormalAt r S T i j).2.1,
          (smoothNormalAt r S T i j).2.2]).getD mm 0 := by
  have e : 3 * (i * (S + 1) + j) + mm = ((S + 1) * 3) * i + (3 * j + mm) := by
    ring
  rw [e, smoothNormals]
  exact flatMap_grid_getD _ 3 (T + 1) (S + 1) i j mm 0 (fun i j => rfl) hi hj hmm

/-- C8: in smooth mode the normal emitted at grid point (i, j) is exactly
the parametric unit vector (cos u cos v, cos u sin v, sin u) with u the
tube angle and v the ring angle, obtained by scaling the tube-circle
offset by 1 / r without re-normalization, and its squared magnitude is
exactly 1 over the reals. -/
theorem c8_smooth_unit_normals (r : ℝ) (S T i j : ℕ) (hr : r ≠ 0)
    (hi : i < T + 1) (hj : j < S + 1) :
    smoothNormalAt r S T i j
      = (Real.cos (sideAngle T i) * Real.cos (sectorAngle S j),
         Real.cos (sideAngle T i) * Real.sin (sectorAngle S j),
         Real.sin (sideAngle T i)) ∧
    normSq (smoothNormalAt r S T i j) = 1 ∧
    ((smoothNormals r S T).getD (3 * (i * (S + 1) + j)) 0,
     (smoothNormals r S T).getD (3 * (i * (S + 1) + j) + 1) 0,
     (smoothNormals r S T).getD (3 * (i * (S + 1) + j) + 2) 0)
      = smoothNormalAt r S T i j := by
  have h1 : smoothNormalAt r S T i j
      = (Real.cos (sideAngle T i) * Real.cos (sectorAngle S j),
         Real.cos (sideAngle T i) * Real.sin (sectorAngle S j),
         Real.sin (sideAngle T i)) := by
    rw [smoothNormalAt]
    simp only [Prod.mk.injEq]
    refine ⟨?_, ?_, ?_⟩ <;> field_simp <;> ring
  refine ⟨h1, ?_, ?_⟩
  · rw [h1, normSq]
    have hv := Real.sin_sq_add_cos_sq (sectorAngle S j)
    have hu := Real.sin_sq_add_cos_sq (sideAngle T i)
    simp only []
    linear_combination (Real.cos (sideAngle T i)) ^ 2 * hv + hu
  · have g0 := smoothNormals_getD r S T i j 0 hi hj (by norm_num)
    have g1 := smoothNormals_getD r S T i j 1 hi hj (by norm_num)
    have g2 := smoothNormals_getD r S T i j 2 hi hj (by norm_num)
    simp only [Nat.add_zero] at g0
    rw [g0, g1, g2]
    norm_num [List.getD_cons_zero, List.getD_cons_succ]

/-- witness for C8 at r = 1, sectors = 4, sides = 3, grid point (0, 0). -/
theorem c8_smooth_unit_normals_witness :
    normSq (smoothNormalAt 1 4 3 0 0) = 1 ∧
    ((smoothNormals 1 4 3).getD 0 0, (smoothNormals 1 4 3).getD 1 0,
     (smoothNormals 1 4 3).getD 2 0) = smoothNormalAt 1 4 3 0 0 := by
  have h := c8_smooth_unit_normals 1 4 3 0 0 one_ne_zero (by norm_num)
    (by norm_num)
  refine ⟨h.2.1, ?_⟩
  have h2 := h.2.2
  norm_num at h2
  exact h2

theorem smoothVertices_getD (R r : ℝ) (S T i j mm : ℕ)
    (hi : i < T + 1) (hj : j < S + 1) (hmm : mm < 3) :
    (smoothVertices R r S T).getD (3 * (i * (S + 1) + j) + mm) 0
      = ([(smoothPositionAt R r S T i j).1,
          (smoothPositionAt R r S T i j).2.1,
          (smoothPositionAt R r S T i j).2.2]).getD mm 0 := by
  have e : 3 * (i * (S + 1) + j) + mm = ((S + 1) * 3) * i + (3 * j + mm) := by
    ring
  rw [e, smoothVertices]
  exact flatMap_grid_getD _ 3 (T + 1) (S + 1) i j mm 0 (fun i j => rfl) hi hj hmm

theorem buildSmooth_vertices_eq (s : Torus) (h : s.upAxis = 3) :
    (buildVerticesSmoothState s).vertices
      = smoothVertices s.majorRadius s.minorRadius s.sectorCount s.sideCount := by
  rw [buildVerticesSmoothState, if_neg (by simp [h])]

/-- C10: a constructor call whose majorRadius or minorRadius argument is
not positive never assigns that member before the vertex builder reads
it: the guarded assignment of set keeps the indeterminate initial value
(modelled as none, and in the state model as the arbitrary prior field),
so the generated geometry is a function of that indeterminate value; at
grid point (0, 0) the emitted x coordinate is literally that value minus
the minor radius. -/
theorem c10_uninitialized_radius :
    ctorMajorRadius 0 = none ∧
    ctorMinorRadius (-1) = none ∧
    (∀ g : Torus, (Torus.ctor 0 (1 / 2) 4 3 true 3 g).majorRadius
      = g.majorRadius) ∧
    (∀ g : Torus, (Torus.ctor 0 (1 / 2) 4 3 true 3 g).vertices
      = smoothVertices g.majorRadius (1 / 2) 4 3) ∧
    (∀ g : Torus, (smoothVertices g.majorRadius (1 / 2) 4 3).getD 0 0
      = g.majorRadius - 1 / 2) := by
  have hclampS : clampSectorCount 4 = 4 := by
    rw [clampSectorCount, if_neg (by norm_num)]
    rfl
  have hclampT : clampSideCount 3 = 3 := by
    rw [clampSideCount, if_neg (by norm_num)]
    rfl
  refine ⟨?_, ?_, ?_, ?_, ?_⟩
  · rw [ctorMajorRadius, radiusAfterSet, if_neg (lt_irrefl 0)]
  · rw [ctorMinorRadius, radiusAfterSet, if_neg (by norm_num)]
  · intro g
    rw [Torus.ctor, Torus.set, if_pos rfl]
    rw [(buildSmooth_scalars _).1]
    show (if (0 : ℝ) < 0 then (0 : ℝ) else g.majorRadius) = g.majorRadius
    rw [if_neg (lt_irrefl 0)]
  · intro g
    rw [Torus.ctor, Torus.set, if_pos rfl, buildSmooth_vertices_eq]
    · show smoothVertices (if (0 : ℝ) < 0 then 0 else g.majorRadius)
          (if (0 : ℝ) < 1 / 2 then 1 / 2 else g.minorRadius)
          (clampSectorCount 4) (clampSideCount 3)
        = smoothVertices g.majorRadius (1 / 2) 4 3
      rw [if_neg (lt_irrefl 0), if_pos (by norm_num), hclampS, hclampT]
    · show clampUpAxis 3 = 3
      decide
  · intro g
    have h := smoothVertices_getD g.majorRadius (1 / 2) 4 3 0 0 0
      (by norm_num) (by norm_num) (by norm_num)
    have e : 3 * (0 * (4 + 1) + 0) + 0 = 0 := by norm_num
    rw [e] at h
    rw [h, List.getD_cons_zero]
    rw [smoothPositionAt]
    simp only [sideAngle, sectorAngle, Nat.cast_zero, zero_mul, sub_zero,
      PI, Real.arccos_neg_one, Real.cos_pi, Real.cos_zero]
    ring
